import Mathlib

/-!
Barcode generation kernel of the Sainsbury's barcode bot

Shallow embedding of `padLeft`, `calculateCheckDigit` and
`generateBarcodeData` from `src/index.js`, followed by the properties of
the check digit and of the assembled barcode.

Modelling conventions.

* A JavaScript string is a `List Char`.  JavaScript measures and indexes
  strings in UTF-16 code units; `jsLength` is that measure (a character
  outside the Basic Multilingual Plane counts for two).  On strings of
  ASCII digits the two notions of length coincide.
* A JavaScript number is used here only for non-negative integer sums far
  below `2^53` and for `NaN`; it is an `Option Nat`, `none` being `NaN`.
* The price argument is an integer (`options.getInteger`), an `Int`.
* `throw new Error(msg)` is `Except.error msg`.
-/

namespace Barcode

/-! ## JavaScript primitives used by the source -/

/-- Number of UTF-16 code units of one character. -/
def utf16Units (c : Char) : Nat := if c.toNat < 65536 then 1 else 2

/-- The `.length` of a JavaScript string: its number of UTF-16 code units. -/
def jsLength (s : List Char) : Nat := (s.map utf16Units).sum

/-- Characters kept by `/\D/g` removal, i.e. the class `[0-9]`. -/
def isDigit (c : Char) : Bool := decide (48 ≤ c.toNat) && decide (c.toNat ≤ 57)

/-- Numeric value of an ASCII digit character. -/
def digitValue (c : Char) : Nat := c.toNat - 48

/-- The call `parseInt(ch, 10)` on a one-unit string: the digit value, or `NaN`
(here `none`) for anything that is not an ASCII digit.  A missing character
(`undefined`) also parses to `NaN`. -/
def parseInt (ch : Option Char) : Option Nat :=
  match ch with
  | some c => if isDigit c then some (digitValue c) else none
  | none => none

/-- Decimal rendering of an integer, as `Number.prototype.toString` gives it. -/
def intToString (n : Int) : List Char :=
  match n with
  | Int.ofNat k => (Nat.repr k).toList
  | Int.negSucc k => '-' :: (Nat.repr (k + 1)).toList

/-- Rendering of a computed number inside a template literal. -/
def numToString (x : Option Nat) : List Char :=
  match x with
  | some k => (Nat.repr k).toList
  | none => ['N', 'a', 'N']

/-- The call `str.padStart(length, "0")`: zeros are prepended up to `length`
code units, and a string already that long is returned unchanged. -/
def padStart (str : List Char) (length : Nat) : List Char :=
  List.replicate (length - jsLength str) '0' ++ str

/-! ## The source functions -/

/-- Source `padLeft(str, length)`; the `toString()` of the argument is applied
by the caller (`intToString` for the price, nothing for a string). -/
def padLeft (str : List Char) (length : Nat) : List Char :=
  padStart str length

/-- One iteration of the loop of `calculateCheckDigit`. -/
def checkDigitStep (input : List Char) (sum : Option Nat) (i : Nat) : Option Nat :=
  let digit := parseInt (input[input.length - 1 - i]?)
  let weight := if i % 2 = 0 then 3 else 1
  match sum, digit with
  | some s, some d => some (s + d * weight)
  | _, _ => none

/-- Source `calculateCheckDigit(input)`: the loop runs `i` over
`0 .. input.length - 1`, reading the character `i` places from the right end.
The list is indexed per character.  JavaScript would see a character outside
the Basic Multilingual Plane as two surrogate units, each of which parses to
`NaN` as the character does here, so the result (`NaN`) is the same; on all
other strings the two indexings coincide. -/
def calculateCheckDigit (input : List Char) : Option Nat :=
  let sum := (List.range input.length).foldl (checkDigitStep input) (some 0)
  sum.map (fun s => (10 - s % 10) % 10)

/-- The object returned by `generateBarcodeData`. -/
structure BarcodeData where
  barcode : List Char
  price : Int
  imageURL : List Char
  deriving DecidableEq, Repr

def urlHead : List Char := "https://barcode.tec-it.com/barcode.ashx?data=".toList

def urlTail : List Char :=
  "&code=Code128&multiplebarcodes=false&translate-esc=false&unit=Fit&dpi=150&imagetype=Png&rotation=0&color=%23000000&bgcolor=%23ffffff&codepage=&qunit=Mm&quiet=5&eclevel=L&barwidth=2&barheight=50".toList

/-- The digit-only form of a product code: `productCode.replace(/\D/g, "")`. -/
def stripNonDigits (productCode : List Char) : List Char :=
  productCode.filter isDigit

/-- The local `productDigits` of `generateBarcodeData` after both assignments:
a 14-digit code loses its last digit (`slice(0, -1)`), then `padLeft(_, 13)`. -/
def productDigits (productCode : List Char) : List Char :=
  let numericProduct := stripNonDigits productCode
  let productDigits :=
    if jsLength numericProduct = 14 then numericProduct.dropLast else numericProduct
  padLeft productDigits 13

/-- The local `paddedPrice` of `generateBarcodeData`: `padLeft(priceInPence, 6)`. -/
def paddedPrice (priceInPence : Int) : List Char :=
  padLeft (intToString priceInPence) 6

/-- The local `baseNumber` of `generateBarcodeData`, the string over which the
check digit is computed: the prefix `91`, the product digits, the padded price. -/
def baseNumber (productCode : List Char) (priceInPence : Int) : List Char :=
  '9' :: '1' :: (productDigits productCode ++ paddedPrice priceInPence)

/-- Source `generateBarcodeData(productCode, priceInPence)`. -/
def generateBarcodeData (productCode : List Char) (priceInPence : Int) :
    Except String BarcodeData :=
  if productCode.isEmpty || decide (jsLength productCode < 8) then
    Except.error "Barcode must be at least 8 digits long"
  else if decide (priceInPence < 1) || decide (priceInPence > 99999) then
    Except.error "Price must be between 1p and Â£999.99"
  else
    let base := baseNumber productCode priceInPence
    let checkDigit := calculateCheckDigit base
    let fullBarcode := base ++ numToString checkDigit
    Except.ok
      { barcode := fullBarcode
        price := priceInPence
        imageURL := urlHead ++ fullBarcode ++ urlTail }

/-! ## Specification-level definitions -/

/-- Weight of the digit at offset `k` from the right end: 3 at even offsets,
1 at odd offsets. -/
def weight (k : Nat) : Nat := if k % 2 = 0 then 3 else 1

/-- The weighted sum of the specification: the digit at offset `k` from the
right end times `weight k`, summed over all positions. -/
def weightedSum (input : List Char) : Nat :=
  ((List.range input.length).map
    (fun k => digitValue (input.reverse.getD k '0') * weight k)).sum

/-- Weighted sum of a complete code, its last digit being the check digit:
the check digit has weight 1 and the weights alternate 1, 3, 1, 3, ...
leftward. -/
def fullChecksum (full : List Char) : Nat :=
  ((List.range full.length).map
    (fun k => digitValue (full.reverse.getD k '0') * weight (k + 1))).sum

/-- A string left-padded with the character `0` to `n` characters. -/
def zeroPadded (s : List Char) (n : Nat) : List Char :=
  List.replicate (n - s.length) '0' ++ s

/-- The last `n` characters of a string. -/
def lastChars (s : List Char) (n : Nat) : List Char := s.drop (s.length - n)

/-- All characters are ASCII digits. -/
def allDigits (s : List Char) : Prop := ∀ c ∈ s, isDigit c = true

instance (s : List Char) : Decidable (allDigits s) := by
  unfold allDigits; infer_instance

/-- The decimal character of a digit value. -/
def digitChar (d : Nat) : Char := Char.ofNat (48 + d)

/-- Weighted sum of a right-to-left digit sequence whose first element sits at
offset `k` from the right end. -/
def altSum (k : Nat) : List Char → Nat
  | [] => 0
  | c :: cs => digitValue c * weight k + altSum (k + 1) cs

deriving instance DecidableEq for Except

/-! ## Characters and lengths -/

theorem utf16Units_pos (c : Char) : 1 ≤ utf16Units c := by
  unfold utf16Units; split <;> omega

theorem utf16Units_of_isDigit {c : Char} (h : isDigit c = true) : utf16Units c = 1 := by
  simp only [isDigit, Bool.and_eq_true, decide_eq_true_eq] at h
  unfold utf16Units
  rw [if_pos (by omega)]

theorem length_le_jsLength (s : List Char) : s.length ≤ jsLength s := by
  induction s with
  | nil => simp [jsLength]
  | cons c t ih =>
    have := utf16Units_pos c
    simp only [jsLength, List.map_cons, List.sum_cons, List.length_cons] at ih ⊢
    omega

theorem jsLength_of_allDigits {s : List Char} (h : allDigits s) : jsLength s = s.length := by
  induction s with
  | nil => simp [jsLength]
  | cons c t ih =>
    have hc := utf16Units_of_isDigit (h c (List.mem_cons_self c t))
    have ht := ih (fun x hx => h x (List.mem_cons_of_mem c hx))
    simp only [jsLength, List.map_cons, List.sum_cons, List.length_cons] at ht ⊢
    omega

theorem allDigits_append {s t : List Char} (hs : allDigits s) (ht : allDigits t) :
    allDigits (s ++ t) := by
  intro c hc
  rcases List.mem_append.mp hc with h | h
  · exact hs c h
  · exact ht c h

theorem allDigits_replicate_zero (n : Nat) : allDigits (List.replicate n '0') := by
  intro c hc
  rw [(List.mem_replicate.mp hc).2]
  decide

theorem allDigits_stripNonDigits (p : List Char) : allDigits (stripNonDigits p) := by
  intro c hc
  exact (List.mem_filter.mp hc).2

theorem allDigits_dropLast {s : List Char} (h : allDigits s) : allDigits s.dropLast :=
  fun c hc => h c (List.mem_of_mem_dropLast hc)

theorem digitValue_le_nine {c : Char} (h : isDigit c = true) : digitValue c ≤ 9 := by
  simp only [isDigit, Bool.and_eq_true, decide_eq_true_eq] at h
  unfold digitValue; omega

/-! ## The loop of `calculateCheckDigit` computes the weighted sum -/

theorem checkDigit_loop (input : List Char) (h : allDigits input) :
    ∀ n, n ≤ input.length →
      (List.range n).foldl (checkDigitStep input) (some 0) =
        some (((List.range n).map
          (fun k => digitValue (input.reverse.getD k '0') * weight k)).sum) := by
  intro n
  induction n with
  | zero => intro _; rfl
  | succ n ih =>
    intro hn
    have hlt : n < input.length := hn
    rw [List.range_succ, List.foldl_append, ih (Nat.le_of_lt hlt)]
    have hidx : input.length - 1 - n < input.length := by omega
    have hrev : input.reverse.getD n '0' = input[input.length - 1 - n] := by
      rw [List.getD_eq_getElem?_getD, List.getElem?_reverse hlt,
        List.getElem?_eq_getElem hidx]
      rfl
    have hd : isDigit (input[input.length - 1 - n]) = true :=
      h _ (List.getElem_mem hidx)
    simp only [List.foldl_cons, List.foldl_nil, checkDigitStep,
      List.getElem?_eq_getElem hidx, parseInt, hd, if_true, List.map_append,
      List.map_cons, List.map_nil, List.sum_append, List.sum_cons, List.sum_nil,
      hrev, weight, Nat.add_zero]

theorem calculateCheckDigit_eq (input : List Char) (h : allDigits input) :
    calculateCheckDigit input = some ((10 - weightedSum input % 10) % 10) := by
  unfold calculateCheckDigit
  simp only [checkDigit_loop input h input.length (Nat.le_refl _), Option.map_some']
  rfl

/-! ## Decimal rendering -/

theorem isDigit_natDigitChar (d : Nat) (h : d < 10) : isDigit (Nat.digitChar d) = true := by
  interval_cases d <;> decide

theorem allDigits_toDigitsCore (fuel : Nat) :
    ∀ (n : Nat) (ds : List Char), allDigits ds → allDigits (Nat.toDigitsCore 10 fuel n ds) := by
  induction fuel with
  | zero => intro n ds h; simpa [Nat.toDigitsCore] using h
  | succ f ih =>
    intro n ds h
    have hd : allDigits (Nat.digitChar (n % 10) :: ds) := by
      intro c hc
      rcases List.mem_cons.mp hc with rfl | hc
      · exact isDigit_natDigitChar _ (Nat.mod_lt _ (by decide))
      · exact h c hc
    simp only [Nat.toDigitsCore]
    split
    · exact hd
    · exact ih _ _ hd

theorem allDigits_repr (n : Nat) : allDigits (Nat.repr n).toList := by
  have h := allDigits_toDigitsCore (n + 1) n [] (fun c hc => absurd hc (List.not_mem_nil c))
  simpa [Nat.repr, Nat.toDigits, List.asString] using h

theorem repr_toList_length_le (n e : Nat) (he : 0 < e) (hn : n < 10 ^ e) :
    (Nat.repr n).toList.length ≤ e :=
  Nat.repr_length n e he hn

theorem repr_digit (d : Nat) (h : d < 10) : (Nat.repr d).toList = [digitChar d] := by
  interval_cases d <;> rfl

theorem intToString_of_nonneg (price : Int) (h : 0 ≤ price) :
    intToString price = (Nat.repr price.toNat).toList := by
  cases price with
  | ofNat k => rfl
  | negSucc k => exact absurd h (by simp [Int.negSucc_lt_zero])

/-! ## The two padded fields -/

theorem padLeft_of_allDigits {s : List Char} (h : allDigits s) (n : Nat) :
    padLeft s n = List.replicate (n - s.length) '0' ++ s := by
  simp only [padLeft, padStart, jsLength_of_allDigits h]

theorem allDigits_padLeft {s : List Char} (h : allDigits s) (n : Nat) :
    allDigits (padLeft s n) := by
  rw [padLeft_of_allDigits h]
  exact allDigits_append (allDigits_replicate_zero _) h

theorem paddedPrice_eq (price : Int) (h1 : 1 ≤ price) :
    paddedPrice price =
      List.replicate (6 - (Nat.repr price.toNat).toList.length) '0' ++
        (Nat.repr price.toNat).toList := by
  unfold paddedPrice
  rw [intToString_of_nonneg price (by omega), padLeft_of_allDigits (allDigits_repr _)]

theorem allDigits_paddedPrice (price : Int) (h1 : 1 ≤ price) :
    allDigits (paddedPrice price) := by
  rw [paddedPrice_eq price h1]
  exact allDigits_append (allDigits_replicate_zero _) (allDigits_repr _)

theorem paddedPrice_length (price : Int) (h1 : 1 ≤ price) (h2 : price ≤ 99999) :
    (paddedPrice price).length = 6 := by
  have hlen : (Nat.repr price.toNat).toList.length ≤ 5 :=
    repr_toList_length_le _ 5 (by decide) (by norm_num; omega)
  rw [paddedPrice_eq price h1, List.length_append, List.length_replicate]
  omega

theorem allDigits_productDigits (p : List Char) : allDigits (productDigits p) := by
  unfold productDigits
  simp only
  split
  · exact allDigits_padLeft (allDigits_dropLast (allDigits_stripNonDigits p)) 13
  · exact allDigits_padLeft (allDigits_stripNonDigits p) 13

theorem productDigits_short (p : List Char) (h : (stripNonDigits p).length ≤ 13) :
    productDigits p =
      List.replicate (13 - (stripNonDigits p).length) '0' ++ stripNonDigits p := by
  have hd := allDigits_stripNonDigits p
  unfold productDigits
  simp only [jsLength_of_allDigits hd]
  rw [if_neg (by omega), padLeft_of_allDigits hd]

theorem productDigits_fourteen (p : List Char) (h : (stripNonDigits p).length = 14) :
    productDigits p = (stripNonDigits p).take 13 := by
  have hd := allDigits_stripNonDigits p
  unfold productDigits
  simp only [jsLength_of_allDigits hd]
  rw [if_pos h, padLeft_of_allDigits (allDigits_dropLast hd), List.length_dropLast, h,
    List.dropLast_eq_take, h]
  rfl

theorem productDigits_long (p : List Char) (h : 15 ≤ (stripNonDigits p).length) :
    productDigits p = stripNonDigits p := by
  have hd := allDigits_stripNonDigits p
  unfold productDigits
  simp only [jsLength_of_allDigits hd]
  rw [if_neg (by omega), padLeft_of_allDigits hd]
  have : 13 - (stripNonDigits p).length = 0 := by omega
  rw [this]
  rfl

theorem productDigits_length (p : List Char) (h : (stripNonDigits p).length ≤ 14) :
    (productDigits p).length = 13 := by
  rcases Nat.lt_or_ge (stripNonDigits p).length 14 with h14 | h14
  · rw [productDigits_short p (by omega), List.length_append, List.length_replicate]
    omega
  · rw [productDigits_fourteen p (by omega), List.length_take]
    omega

theorem allDigits_baseNumber (p : List Char) (price : Int) (h1 : 1 ≤ price) :
    allDigits (baseNumber p price) := by
  intro c hc
  simp only [baseNumber, List.mem_cons] at hc
  rcases hc with rfl | rfl | hc
  · decide
  · decide
  · exact allDigits_append (allDigits_productDigits p) (allDigits_paddedPrice price h1) c hc

/-! ## Success and failure of `generateBarcodeData` -/

/-- The check digit of a digit string, written with the weighted sum. -/
theorem checkDigit_lt_ten (s : Nat) : (10 - s % 10) % 10 < 10 :=
  Nat.mod_lt _ (by decide)

theorem generateBarcodeData_ok (p : List Char) (price : Int) (hp : 8 ≤ jsLength p)
    (h1 : 1 ≤ price) (h2 : price ≤ 99999) :
    generateBarcodeData p price =
      Except.ok
        { barcode := baseNumber p price ++
            [digitChar ((10 - weightedSum (baseNumber p price) % 10) % 10)]
          price := price
          imageURL := urlHead ++ (baseNumber p price ++
            [digitChar ((10 - weightedSum (baseNumber p price) % 10) % 10)]) ++ urlTail } := by
  have hne : p.isEmpty = false := by
    cases p with
    | nil => simp [jsLength] at hp
    | cons c t => rfl
  unfold generateBarcodeData
  rw [if_neg (by simp [hne]; omega), if_neg (by simp; omega)]
  simp only [calculateCheckDigit_eq _ (allDigits_baseNumber p price h1), numToString,
    repr_digit _ (checkDigit_lt_ten _)]

theorem generateBarcodeData_short (p : List Char) (price : Int) (hp : jsLength p < 8) :
    generateBarcodeData p price = Except.error "Barcode must be at least 8 digits long" := by
  unfold generateBarcodeData
  rw [if_pos (by simp [hp])]

theorem generateBarcodeData_price (p : List Char) (price : Int) (hp : 8 ≤ jsLength p)
    (h : price < 1 ∨ 99999 < price) :
    generateBarcodeData p price = Except.error "Price must be between 1p and Â£999.99" := by
  have hne : p.isEmpty = false := by
    cases p with
    | nil => simp [jsLength] at hp
    | cons c t => rfl
  unfold generateBarcodeData
  rw [if_neg (by simp [hne]; omega), if_pos (by simpa using h)]

theorem jsLength_ge_of_strip (p : List Char) (n : Nat) (h : n ≤ (stripNonDigits p).length) :
    n ≤ jsLength p := by
  have h1 : (stripNonDigits p).length ≤ p.length := List.length_filter_le _ _
  have h2 := length_le_jsLength p
  omega

theorem isDigit_digitChar (d : Nat) (h : d < 10) : isDigit (digitChar d) = true := by
  interval_cases d <;> decide

theorem digitValue_digitChar (d : Nat) (h : d < 10) : digitValue (digitChar d) = d := by
  interval_cases d <;> decide

theorem paddedPrice_zeroPadded (price : Int) (h1 : 1 ≤ price) :
    paddedPrice price = zeroPadded (intToString price) 6 := by
  rw [paddedPrice_eq price h1, zeroPadded, intToString_of_nonneg price (by omega)]

theorem conditions_of_ok {p : List Char} {price : Int} {r : BarcodeData}
    (h : generateBarcodeData p price = Except.ok r) :
    8 ≤ jsLength p ∧ 1 ≤ price ∧ price ≤ 99999 := by
  rcases Nat.lt_or_ge (jsLength p) 8 with hp | hp
  · rw [generateBarcodeData_short p price hp] at h
    cases h
  · by_cases hpr : price < 1 ∨ 99999 < price
    · rw [generateBarcodeData_price p price hp hpr] at h
      cases h
    · omega

theorem barcode_of_ok {p : List Char} {price : Int} {r : BarcodeData}
    (h : generateBarcodeData p price = Except.ok r) :
    r.barcode = baseNumber p price ++
      [digitChar ((10 - weightedSum (baseNumber p price) % 10) % 10)] := by
  obtain ⟨hp, h1, h2⟩ := conditions_of_ok h
  rw [generateBarcodeData_ok p price hp h1 h2] at h
  rw [← Except.ok.inj h]

theorem lastChars_append (a b : List Char) : lastChars (a ++ b) b.length = b := by
  unfold lastChars
  rw [List.length_append, Nat.add_sub_cancel]
  exact List.drop_left a b

theorem baseNumber_lastChars (p : List Char) (price : Int) (h1 : 1 ≤ price)
    (h2 : price ≤ 99999) : lastChars (baseNumber p price) 6 = paddedPrice price := by
  have h := lastChars_append ('9' :: '1' :: productDigits p) (paddedPrice price)
  rw [paddedPrice_length price h1 h2] at h
  exact h


/-! ## Algebra of the weighted sum -/

theorem rangeSum_eq_altSum (l : List Char) :
    ∀ k, ((List.range l.length).map
      (fun i => digitValue (l.getD i '0') * weight (i + k))).sum = altSum k l := by
  induction l with
  | nil => intro k; rfl
  | cons c t ih =>
    intro k
    rw [List.length_cons, List.range_succ_eq_map, List.map_cons, List.sum_cons,
      List.map_map, altSum, ← ih (k + 1)]
    simp only [List.getD_cons_zero, Nat.zero_add, Function.comp_def, List.getD_cons_succ,
      Nat.succ_eq_add_one]
    congr 2
    apply List.map_congr_left
    intro i _
    rw [Nat.add_assoc, Nat.add_comm 1 k]

theorem weightedSum_eq_altSum (l : List Char) : weightedSum l = altSum 0 l.reverse := by
  have h := rangeSum_eq_altSum l.reverse 0
  simp only [List.length_reverse, Nat.add_zero] at h
  exact h

theorem fullChecksum_eq_altSum (l : List Char) : fullChecksum l = altSum 1 l.reverse := by
  have h := rangeSum_eq_altSum l.reverse 1
  simp only [List.length_reverse] at h
  exact h

theorem altSum_append (s t : List Char) :
    ∀ k, altSum k (s ++ t) = altSum k s + altSum (k + s.length) t := by
  induction s with
  | nil => intro k; simp [altSum]
  | cons c cs ih =>
    intro k
    rw [List.cons_append, altSum, altSum, ih (k + 1), List.length_cons,
      Nat.add_assoc k 1, Nat.add_comm 1 cs.length, Nat.add_assoc]

theorem weight_succ_succ (k : Nat) : weight (k + 2) = weight k := by
  unfold weight
  have : (k + 2) % 2 = k % 2 := by omega
  rw [this]

theorem altSum_succ_succ (l : List Char) : ∀ k, altSum (k + 2) l = altSum k l := by
  induction l with
  | nil => intro k; rfl
  | cons c cs ih =>
    intro k
    simp only [altSum, weight_succ_succ]
    rw [show k + 2 + 1 = (k + 1) + 2 from by omega, ih (k + 1)]

theorem fullChecksum_snoc (base : List Char) (x : Char) :
    fullChecksum (base ++ [x]) = digitValue x + weightedSum base := by
  rw [fullChecksum_eq_altSum, weightedSum_eq_altSum, List.reverse_append]
  simp only [List.reverse_cons, List.reverse_nil, List.nil_append, List.singleton_append,
    altSum]
  rw [show (1 : Nat) + 1 = 0 + 2 from rfl, altSum_succ_succ]
  simp [weight]

theorem weightedSum_split (pre suf : List Char) (x : Char) :
    weightedSum (pre ++ x :: suf) =
      altSum 0 suf.reverse + digitValue x * weight suf.length +
        altSum (suf.length + 1) pre.reverse := by
  rw [weightedSum_eq_altSum, List.reverse_append, List.reverse_cons, List.append_assoc,
    altSum_append, List.length_reverse, Nat.zero_add]
  show _ + (digitValue x * weight suf.length + altSum (suf.length + 1) pre.reverse) = _
  rw [Nat.add_assoc]

theorem weight_cases (k : Nat) : weight k = 1 ∨ weight k = 3 := by
  unfold weight; split <;> simp

theorem toNat_injective {x y : Char} (h : x.toNat = y.toNat) : x = y := by
  rw [← Char.ofNat_toNat x, ← Char.ofNat_toNat y, h]

theorem digitValue_ne {x y : Char} (hx : isDigit x = true) (hy : isDigit y = true)
    (hne : x ≠ y) : digitValue x ≠ digitValue y := by
  simp only [isDigit, Bool.and_eq_true, decide_eq_true_eq] at hx hy
  intro h
  apply hne
  apply toNat_injective
  unfold digitValue at h
  omega

theorem eq_of_differ_at {a b : List Char} {i : Nat} (hlen : a.length = b.length)
    (hi : i < a.length) (hsame : ∀ j, j ≠ i → a[j]? = b[j]?) :
    ∃ pre suf x y, a = pre ++ x :: suf ∧ b = pre ++ y :: suf ∧ a[i]? = some x ∧
      b[i]? = some y := by
  have hib : i < b.length := hlen ▸ hi
  refine ⟨a.take i, a.drop (i + 1), a[i], b[i], ?_, ?_, ?_, ?_⟩
  · rw [← List.drop_eq_getElem_cons hi, List.take_append_drop]
  · have ht : a.take i = b.take i := by
      apply List.ext_getElem?
      intro j
      by_cases hj : j < i
      · rw [List.getElem?_take_of_lt hj, List.getElem?_take_of_lt hj]
        exact hsame j (by omega)
      · rw [List.getElem?_eq_none (by rw [List.length_take]; omega),
          List.getElem?_eq_none (by rw [List.length_take]; omega)]
    have hd : a.drop (i + 1) = b.drop (i + 1) := by
      apply List.ext_getElem?
      intro j
      rw [List.getElem?_drop, List.getElem?_drop]
      exact hsame _ (by omega)
    rw [ht, hd, ← List.drop_eq_getElem_cons hib, List.take_append_drop]
  · exact List.getElem?_eq_getElem hi
  · exact List.getElem?_eq_getElem hib

theorem weightedSum_mod_ne (pre suf : List Char) (x y : Char) (hx : isDigit x = true)
    (hy : isDigit y = true) (hne : x ≠ y) :
    (10 - weightedSum (pre ++ x :: suf) % 10) % 10 ≠
      (10 - weightedSum (pre ++ y :: suf) % 10) % 10 := by
  rw [weightedSum_split, weightedSum_split]
  have h1 := digitValue_le_nine hx
  have h2 := digitValue_le_nine hy
  have h3 := digitValue_ne hx hy hne
  rcases weight_cases suf.length with hw | hw <;> rw [hw] <;> omega

/-! ## The claims -/

/-- C1: for a product code made only of decimal digits, 8 to 13 characters
long, and a price between 1 and 99999, `generateBarcodeData` succeeds and the
barcode is `91`, then the product code zero-padded to 13 characters, then the
decimal price zero-padded to 6 characters, then the single digit
`calculateCheckDigit` gives on those 21 characters; the barcode is 22 decimal
digits long. -/
theorem generateBarcodeData_digit_code (productCode : List Char) (priceInPence : Int)
    (hd : allDigits productCode) (h8 : 8 ≤ productCode.length)
    (h13 : productCode.length ≤ 13) (h1 : 1 ≤ priceInPence) (h2 : priceInPence ≤ 99999) :
    ∃ (r : BarcodeData) (c : Nat),
      generateBarcodeData productCode priceInPence = Except.ok r ∧
      (zeroPadded productCode 13).length = 13 ∧
      (zeroPadded (intToString priceInPence) 6).length = 6 ∧
      calculateCheckDigit (['9', '1'] ++ zeroPadded productCode 13 ++
        zeroPadded (intToString priceInPence) 6) = some c ∧
      c < 10 ∧
      r.barcode = ['9', '1'] ++ zeroPadded productCode 13 ++
        zeroPadded (intToString priceInPence) 6 ++ [digitChar c] ∧
      r.barcode.length = 22 ∧ allDigits r.barcode := by
  have hstrip : stripNonDigits productCode = productCode :=
    List.filter_eq_self.mpr hd
  have hprod : productDigits productCode = zeroPadded productCode 13 := by
    rw [productDigits_short productCode (by rw [hstrip]; exact h13), hstrip, zeroPadded]
  have hprice := paddedPrice_zeroPadded priceInPence h1
  have hbase : baseNumber productCode priceInPence =
      ['9', '1'] ++ zeroPadded productCode 13 ++ zeroPadded (intToString priceInPence) 6 := by
    simp [baseNumber, hprod, hprice]
  have hPlen : (zeroPadded productCode 13).length = 13 := by
    rw [zeroPadded, List.length_append, List.length_replicate]; omega
  have hQlen : (zeroPadded (intToString priceInPence) 6).length = 6 := by
    rw [← hprice]; exact paddedPrice_length priceInPence h1 h2
  have hall := allDigits_baseNumber productCode priceInPence h1
  have hjs : 8 ≤ jsLength productCode := Nat.le_trans h8 (length_le_jsLength _)
  refine ⟨_, (10 - weightedSum (baseNumber productCode priceInPence) % 10) % 10,
    generateBarcodeData_ok productCode priceInPence hjs h1 h2, hPlen, hQlen, ?_,
    checkDigit_lt_ten _, ?_, ?_, ?_⟩
  · rw [← hbase]; exact calculateCheckDigit_eq _ hall
  · show baseNumber productCode priceInPence ++ _ = _
    rw [hbase]
  · show (baseNumber productCode priceInPence ++ _).length = 22
    rw [hbase]
    simp only [List.length_append, hPlen, hQlen, List.length_cons, List.length_nil]
  · show allDigits (baseNumber productCode priceInPence ++ _)
    apply allDigits_append hall
    intro c hc
    rw [List.mem_singleton.mp hc]
    exact isDigit_digitChar _ (checkDigit_lt_ten _)

theorem generateBarcodeData_digit_code_witness :
    ∃ (r : BarcodeData) (c : Nat),
      generateBarcodeData "1234567890123".toList 100 = Except.ok r ∧
      (zeroPadded "1234567890123".toList 13).length = 13 ∧
      (zeroPadded (intToString 100) 6).length = 6 ∧
      calculateCheckDigit (['9', '1'] ++ zeroPadded "1234567890123".toList 13 ++
        zeroPadded (intToString 100) 6) = some c ∧
      c < 10 ∧
      r.barcode = ['9', '1'] ++ zeroPadded "1234567890123".toList 13 ++
        zeroPadded (intToString 100) 6 ++ [digitChar c] ∧
      r.barcode.length = 22 ∧ allDigits r.barcode :=
  generateBarcodeData_digit_code "1234567890123".toList 100 (by decide) (by decide)
    (by decide) (by decide) (by decide)

/-- C2: on a non-empty string of decimal digits, `calculateCheckDigit` returns
`(10 - (Sum mod 10)) mod 10`, where `Sum` weighs the digit at offset `k` from
the right end by 3 for even `k` and by 1 for odd `k`; the value lies in 0..9
and `Sum` plus the check digit is a multiple of 10. -/
theorem calculateCheckDigit_weighted (input : List Char) (_hne : input ≠ [])
    (hd : allDigits input) :
    ∃ c : Nat, calculateCheckDigit input = some c ∧
      c = (10 - weightedSum input % 10) % 10 ∧ c ≤ 9 ∧
      (weightedSum input + c) % 10 = 0 := by
  refine ⟨_, calculateCheckDigit_eq input hd, rfl, ?_, ?_⟩ <;> omega

theorem calculateCheckDigit_weighted_witness :
    ∃ c : Nat, calculateCheckDigit "911234567890123000100".toList = some c ∧
      c = (10 - weightedSum "911234567890123000100".toList % 10) % 10 ∧ c ≤ 9 ∧
      (weightedSum "911234567890123000100".toList + c) % 10 = 0 :=
  calculateCheckDigit_weighted "911234567890123000100".toList (by decide) (by decide)

set_option maxRecDepth 100000 in
/-- C3, as stated, fails on a 15-digit product code: the barcode has 24
characters, its last character is the check digit `6` of the 23 characters
before it, while the check digit of its first 21 characters is `9`. -/
theorem first21_check_digit_counterexample :
    generateBarcodeData "100000000000000".toList 1 =
        Except.ok
          { barcode := "911000000000000000000016".toList
            price := 1
            imageURL := urlHead ++ "911000000000000000000016".toList ++ urlTail } ∧
      "911000000000000000000016".toList.getLast? = some '6' ∧
      calculateCheckDigit ("911000000000000000000016".toList.take 21) = some 9 ∧
      digitChar 9 ≠ '6' := by
  decide

/-- C3, amended: whenever `generateBarcodeData` succeeds, the last character of
the barcode is the decimal digit `calculateCheckDigit` gives on the barcode
without its last character; when the digit-only form of the product code has at
most 14 characters the barcode has 22 characters and that string is its first
21 characters. -/
theorem last_char_is_check_digit (productCode : List Char) (priceInPence : Int)
    (r : BarcodeData) (h : generateBarcodeData productCode priceInPence = Except.ok r) :
    ∃ c : Nat, c < 10 ∧ calculateCheckDigit r.barcode.dropLast = some c ∧
      r.barcode.getLast? = some (digitChar c) ∧
      ((stripNonDigits productCode).length ≤ 14 →
        r.barcode.length = 22 ∧ r.barcode.dropLast = r.barcode.take 21) := by
  obtain ⟨hp, h1, h2⟩ := conditions_of_ok h
  have hb := barcode_of_ok h
  have hall := allDigits_baseNumber productCode priceInPence h1
  refine ⟨(10 - weightedSum (baseNumber productCode priceInPence) % 10) % 10,
    checkDigit_lt_ten _, ?_, ?_, ?_⟩
  · rw [hb, List.dropLast_concat]
    exact calculateCheckDigit_eq _ hall
  · rw [hb, List.getLast?_concat]
  · intro h14
    have hlen : (baseNumber productCode priceInPence).length = 21 := by
      simp only [baseNumber, List.length_cons, List.length_append,
        productDigits_length productCode h14, paddedPrice_length priceInPence h1 h2]
    constructor
    · rw [hb, List.length_append, hlen]
      rfl
    · rw [hb, List.dropLast_concat, ← hlen, List.take_left]

set_option maxRecDepth 100000 in
theorem last_char_is_check_digit_witness :
    ∃ c : Nat, c < 10 ∧
      calculateCheckDigit "9112345678901230001000".toList.dropLast = some c ∧
      "9112345678901230001000".toList.getLast? = some (digitChar c) ∧
      ((stripNonDigits "1234567890123".toList).length ≤ 14 →
        "9112345678901230001000".toList.length = 22 ∧
          "9112345678901230001000".toList.dropLast =
            "9112345678901230001000".toList.take 21) :=
  last_char_is_check_digit "1234567890123".toList 100
    { barcode := "9112345678901230001000".toList
      price := 100
      imageURL := urlHead ++ "9112345678901230001000".toList ++ urlTail } (by decide)

set_option maxRecDepth 100000 in
/-- C4, evaluated at a product code with exactly 7 digits and one dash: the
length test passes on the 8 raw characters, so `generateBarcodeData` returns a
barcode instead of failing. -/
theorem seven_digit_code_accepted :
    (stripNonDigits "1234567-".toList).length = 7 ∧
      generateBarcodeData "1234567-".toList 100 =
        Except.ok
          { barcode := "9100000012345670001009".toList
            price := 100
            imageURL := urlHead ++ "9100000012345670001009".toList ++ urlTail } := by
  decide

/-- C5: when the digit-only form of the product code has at least 8
characters, `generateBarcodeData` fails exactly when the price is below 1 or
above 99999; prices 0 and 100000 are rejected, prices 1 and 99999 are accepted
and put `000001` and `099999` in the 6 characters before the check digit. -/
theorem price_range_decides_failure (productCode : List Char)
    (h8 : 8 ≤ (stripNonDigits productCode).length) :
    (∀ priceInPence : Int,
      (∃ e, generateBarcodeData productCode priceInPence = Except.error e) ↔
        (priceInPence < 1 ∨ priceInPence > 99999)) ∧
    (∃ e, generateBarcodeData productCode 0 = Except.error e) ∧
    (∃ e, generateBarcodeData productCode 100000 = Except.error e) ∧
    (∃ r, generateBarcodeData productCode 1 = Except.ok r ∧
      lastChars r.barcode.dropLast 6 = ['0', '0', '0', '0', '0', '1']) ∧
    (∃ r, generateBarcodeData productCode 99999 = Except.ok r ∧
      lastChars r.barcode.dropLast 6 = ['0', '9', '9', '9', '9', '9']) := by
  have hp : 8 ≤ jsLength productCode := jsLength_ge_of_strip productCode 8 h8
  have hfield : ∀ price : Int, 1 ≤ price → price ≤ 99999 →
      ∃ r, generateBarcodeData productCode price = Except.ok r ∧
        lastChars r.barcode.dropLast 6 = paddedPrice price := by
    intro price h1 h2
    have hok := generateBarcodeData_ok productCode price hp h1 h2
    refine ⟨_, hok, ?_⟩
    rw [barcode_of_ok hok, List.dropLast_concat]
    exact baseNumber_lastChars productCode price h1 h2
  refine ⟨?_, ⟨_, generateBarcodeData_price productCode 0 hp (by decide)⟩,
    ⟨_, generateBarcodeData_price productCode 100000 hp (by decide)⟩, ?_, ?_⟩
  · intro price
    constructor
    · rintro ⟨e, he⟩
      by_contra hcon
      rw [generateBarcodeData_ok productCode price hp (by omega) (by omega)] at he
      cases he
    · intro h
      exact ⟨_, generateBarcodeData_price productCode price hp (by omega)⟩
  · obtain ⟨r, hr, hl⟩ := hfield 1 (by decide) (by decide)
    exact ⟨r, hr, hl.trans (by decide)⟩
  · obtain ⟨r, hr, hl⟩ := hfield 99999 (by decide) (by decide)
    exact ⟨r, hr, hl.trans (by decide)⟩

theorem price_range_decides_failure_witness :
    (∀ priceInPence : Int,
      (∃ e, generateBarcodeData "5 000128 104517".toList priceInPence = Except.error e) ↔
        (priceInPence < 1 ∨ priceInPence > 99999)) ∧
    (∃ e, generateBarcodeData "5 000128 104517".toList 0 = Except.error e) ∧
    (∃ e, generateBarcodeData "5 000128 104517".toList 100000 = Except.error e) ∧
    (∃ r, generateBarcodeData "5 000128 104517".toList 1 = Except.ok r ∧
      lastChars r.barcode.dropLast 6 = ['0', '0', '0', '0', '0', '1']) ∧
    (∃ r, generateBarcodeData "5 000128 104517".toList 99999 = Except.ok r ∧
      lastChars r.barcode.dropLast 6 = ['0', '9', '9', '9', '9', '9']) :=
  price_range_decides_failure "5 000128 104517".toList (by decide)

/-- C6: when the digit-only form `D` of the product code has exactly 14
characters and the price is between 1 and 99999, `generateBarcodeData`
succeeds and the 13 characters of the barcode at positions 2..14 are the first
13 characters of `D`. -/
theorem fourteen_digits_drop_last (productCode : List Char) (priceInPence : Int)
    (h14 : (stripNonDigits productCode).length = 14) (h1 : 1 ≤ priceInPence)
    (h2 : priceInPence ≤ 99999) :
    ∃ r, generateBarcodeData productCode priceInPence = Except.ok r ∧
      (r.barcode.drop 2).take 13 = (stripNonDigits productCode).take 13 ∧
      r.barcode.take 2 = ['9', '1'] ∧ r.barcode.length = 22 := by
  have hp : 8 ≤ jsLength productCode :=
    jsLength_ge_of_strip productCode 8 (by omega)
  have hok := generateBarcodeData_ok productCode priceInPence hp h1 h2
  have hprod := productDigits_fourteen productCode h14
  have hlen : ((stripNonDigits productCode).take 13).length = 13 := by
    rw [List.length_take]; omega
  refine ⟨_, hok, ?_, ?_, ?_⟩
  · rw [barcode_of_ok hok, baseNumber, hprod]
    simp only [List.cons_append, List.drop_succ_cons, List.drop_zero, List.append_assoc]
    exact List.take_left' hlen
  · rw [barcode_of_ok hok, baseNumber]
    rfl
  · rw [barcode_of_ok hok, baseNumber, hprod]
    simp only [List.cons_append, List.length_cons, List.length_append, hlen,
      paddedPrice_length priceInPence h1 h2, List.length_nil]

theorem fourteen_digits_drop_last_witness :
    ∃ r, generateBarcodeData "12345678901234".toList 100 = Except.ok r ∧
      (r.barcode.drop 2).take 13 = (stripNonDigits "12345678901234".toList).take 13 ∧
      r.barcode.take 2 = ['9', '1'] ∧ r.barcode.length = 22 :=
  fourteen_digits_drop_last "12345678901234".toList 100 (by decide) (by decide) (by decide)

/-- C7, as stated, fails on the base `1`: its check digit is 7, and the
weighted sum of `17` with weight 3 on the rightmost digit is 22, which is not
a multiple of 10. -/
theorem round_trip_weight_three_counterexample :
    calculateCheckDigit ['1'] = some 7 ∧
      weightedSum (['1'] ++ [digitChar 7]) = 22 ∧
      weightedSum (['1'] ++ [digitChar 7]) % 10 ≠ 0 := by
  decide

/-- C7, amended: for a non-empty string of decimal digits `base`, append the
check digit `calculateCheckDigit(base)` as one decimal character; the weighted
sum of the result in which the rightmost digit (the check digit) has weight 1
and the weights alternate 1, 3, 1, 3, ... leftward is a multiple of 10. -/
theorem round_trip_check_digit (base : List Char) (_hne : base ≠ [])
    (hd : allDigits base) :
    ∃ c : Nat, calculateCheckDigit base = some c ∧ c < 10 ∧
      fullChecksum (base ++ [digitChar c]) % 10 = 0 := by
  refine ⟨_, calculateCheckDigit_eq base hd, checkDigit_lt_ten _, ?_⟩
  rw [fullChecksum_snoc, digitValue_digitChar _ (checkDigit_lt_ten _)]
  omega

theorem round_trip_check_digit_witness :
    ∃ c : Nat, calculateCheckDigit ['1'] = some c ∧ c < 10 ∧
      fullChecksum (['1'] ++ [digitChar c]) % 10 = 0 :=
  round_trip_check_digit ['1'] (by decide) (by decide)

/-- C8: when the digit-only form of the product code has `n ≥ 15` characters
and the price is between 1 and 99999, `generateBarcodeData` succeeds and keeps
every product digit: the barcode is `91`, the `n` digits, the 6-character
price field and the check digit, `n + 9` characters in all, more than 22. -/
theorem long_code_widens (productCode : List Char) (priceInPence : Int)
    (h15 : 15 ≤ (stripNonDigits productCode).length) (h1 : 1 ≤ priceInPence)
    (h2 : priceInPence ≤ 99999) :
    ∃ (r : BarcodeData) (c : Nat),
      generateBarcodeData productCode priceInPence = Except.ok r ∧
      (zeroPadded (intToString priceInPence) 6).length = 6 ∧
      calculateCheckDigit (['9', '1'] ++ stripNonDigits productCode ++
        zeroPadded (intToString priceInPence) 6) = some c ∧
      c < 10 ∧
      r.barcode = ['9', '1'] ++ stripNonDigits productCode ++
        zeroPadded (intToString priceInPence) 6 ++ [digitChar c] ∧
      r.barcode.length = (stripNonDigits productCode).length + 9 ∧
      22 < r.barcode.length := by
  have hp : 8 ≤ jsLength productCode :=
    jsLength_ge_of_strip productCode 8 (by omega)
  have hok := generateBarcodeData_ok productCode priceInPence hp h1 h2
  have hprice := paddedPrice_zeroPadded priceInPence h1
  have hQlen : (zeroPadded (intToString priceInPence) 6).length = 6 := by
    rw [← hprice]; exact paddedPrice_length priceInPence h1 h2
  have hbase : baseNumber productCode priceInPence =
      ['9', '1'] ++ stripNonDigits productCode ++
        zeroPadded (intToString priceInPence) 6 := by
    simp [baseNumber, productDigits_long productCode h15, hprice]
  have hlen : (baseNumber productCode priceInPence ++
      [digitChar ((10 - weightedSum (baseNumber productCode priceInPence) % 10) % 10)]).length =
        (stripNonDigits productCode).length + 9 := by
    rw [hbase]
    simp only [List.length_append, hQlen, List.length_cons, List.length_nil]
    omega
  refine ⟨_, (10 - weightedSum (baseNumber productCode priceInPence) % 10) % 10, hok, hQlen,
    ?_, checkDigit_lt_ten _, ?_, ?_, ?_⟩
  · rw [← hbase]
    exact calculateCheckDigit_eq _ (allDigits_baseNumber productCode priceInPence h1)
  · rw [barcode_of_ok hok, hbase]
  · rw [barcode_of_ok hok]
    exact hlen
  · rw [barcode_of_ok hok, hlen]
    omega

theorem long_code_widens_witness :
    ∃ (r : BarcodeData) (c : Nat),
      generateBarcodeData "100000000000000".toList 1 = Except.ok r ∧
      (zeroPadded (intToString 1) 6).length = 6 ∧
      calculateCheckDigit (['9', '1'] ++ stripNonDigits "100000000000000".toList ++
        zeroPadded (intToString 1) 6) = some c ∧
      c < 10 ∧
      r.barcode = ['9', '1'] ++ stripNonDigits "100000000000000".toList ++
        zeroPadded (intToString 1) 6 ++ [digitChar c] ∧
      r.barcode.length = (stripNonDigits "100000000000000".toList).length + 9 ∧
      22 < r.barcode.length :=
  long_code_widens "100000000000000".toList 1 (by decide) (by decide) (by decide)

/-- C9: two product codes of at least 8 characters each (as JavaScript counts
them) with the same digit-only form give, at the same price between 1 and
99999, two successful calls of `generateBarcodeData` with the same barcode. -/
theorem separators_ignored (p q : List Char) (priceInPence : Int)
    (hp : 8 ≤ jsLength p) (hq : 8 ≤ jsLength q)
    (hdig : stripNonDigits p = stripNonDigits q) (h1 : 1 ≤ priceInPence)
    (h2 : priceInPence ≤ 99999) :
    ∃ r s, generateBarcodeData p priceInPence = Except.ok r ∧
      generateBarcodeData q priceInPence = Except.ok s ∧ r.barcode = s.barcode ∧
      r = s := by
  have hokp := generateBarcodeData_ok p priceInPence hp h1 h2
  have hokq := generateBarcodeData_ok q priceInPence hq h1 h2
  have hbase : baseNumber p priceInPence = baseNumber q priceInPence := by
    simp only [baseNumber, productDigits, hdig]
  rw [hbase] at hokp
  exact ⟨_, _, hokp, hokq, rfl, rfl⟩

theorem separators_ignored_witness :
    ∃ r s, generateBarcodeData "5 000128 104517".toList 250 = Except.ok r ∧
      generateBarcodeData "5000128-104517".toList 250 = Except.ok s ∧
      r.barcode = s.barcode ∧ r = s :=
  separators_ignored "5 000128 104517".toList "5000128-104517".toList 250
    (by decide) (by decide) (by decide) (by decide) (by decide)

/-- C10: two strings of decimal digits of the same non-zero length that differ
in exactly one position have different check digits. -/
theorem single_digit_error_detected (a b : List Char) (ha : allDigits a)
    (hb : allDigits b) (hlen : a.length = b.length) (_hpos : 0 < a.length)
    (hdiff : ∃ i, i < a.length ∧ a[i]? ≠ b[i]? ∧ ∀ j, j ≠ i → a[j]? = b[j]?) :
    calculateCheckDigit a ≠ calculateCheckDigit b := by
  obtain ⟨i, hi, hne, hsame⟩ := hdiff
  obtain ⟨pre, suf, x, y, hax, hby, hxi, hyi⟩ := eq_of_differ_at hlen hi hsame
  have hxy : x ≠ y := by
    intro h
    apply hne
    rw [hxi, hyi, h]
  have hx : isDigit x = true := ha x (by rw [hax]; simp)
  have hy : isDigit y = true := hb y (by rw [hby]; simp)
  rw [calculateCheckDigit_eq a ha, calculateCheckDigit_eq b hb, hax, hby]
  intro h
  exact weightedSum_mod_ne pre suf x y hx hy hxy (Option.some.inj h)

theorem single_digit_error_detected_witness :
    calculateCheckDigit "911234567890123000100".toList ≠
      calculateCheckDigit "911234567890173000100".toList :=
  single_digit_error_detected "911234567890123000100".toList
    "911234567890173000100".toList (by decide) (by decide) (by decide) (by decide)
    ⟨13, by decide, by decide, by
      intro j hj
      by_cases h : j < 21
      · interval_cases j <;> first | exact absurd rfl hj | rfl
      · rw [List.getElem?_eq_none (by simp; omega), List.getElem?_eq_none (by simp; omega)]⟩

end Barcode
